import Mathlib

/-!
# Wordle (`my-react-app/src/App.jsx`)

A shallow embedding of the `App` component: its five pieces of React state, the
handlers `handleChange`, `submit` and `reset`, the dictionary check
`checkWordInDictionary`, the word fetch `fetchData`, and the attributes the render
function derives from the state (`value`, `className`, `disabled`).

Conventions of the embedding.

* A JavaScript string is a Lean `String`; `length`, indexing and `includes` are taken
  on its list of characters (characters of the basic plane, one code unit each).
* The objects `inputs` and `classes` are insertion-ordered association lists.  Their
  property names are `letter1` .. `letter30`; the name `letterN` is represented by the
  number `N`.  Such names are not array indices, so `Object.keys` lists them in
  insertion order.
* A handler is a function from the state (and the data of the event) to the next state
  and the list of effects it performs (`alert`, `focus`, a call of `fetchData`).
  The `async` handler `submit` is run to completion (`submit`): its awaited lookup is a
  parameter, and no other event falls between its call and its return.  What a call does
  when other calls of `submit` have completed during its `await` is `submitResume`.
-/

namespace Wordle

/-! ## JavaScript objects with string values -/

/-- An object whose own properties are `letterN ↦ value`, in insertion order. -/
abbrev JSObject := List (Nat × String)

/-- The value of `Object.keys(o)`. -/
def objectKeys (o : JSObject) : List Nat := o.map Prod.fst

/-- The value of `o[key]` for an own property; an absent property reads as the empty string
(`submit` only reads keys taken from `Object.keys`, and the render function writes
`o[key] || ''`). -/
def getProp (o : JSObject) (key : Nat) : String := (o.lookup key).getD ""

/-- The object `{...o, [key]: value}`: an existing property keeps its place and takes the
new value, a new property is added at the end. -/
def setProp : JSObject → Nat → String → JSObject
  | [], key, value => [(key, value)]
  | (k, v) :: rest, key, value =>
    if k = key then (k, value) :: rest else (k, v) :: setProp rest key value

/-- The object `{...a, ...b}`. -/
def spread (a b : JSObject) : JSObject := b.foldl (fun acc kv => setProp acc kv.1 kv.2) a

/-- The value of `xs.slice(startIndex, endIndex)` for `startIndex ≤ endIndex`. -/
def slice {α : Type} (xs : List α) (startIndex endIndex : Nat) : List α :=
  (xs.drop startIndex).take (endIndex - startIndex)

/-! ## JavaScript strings -/

/-- The value of `s[index]`: a one-character string, or `none` for `undefined`. -/
def charAt (s : String) (index : Nat) : Option String :=
  s.data[index]?.map String.singleton

/-- The value of `s.includes(sub)`: `sub` occurs in `s` as a contiguous substring. -/
def includes (s sub : String) : Bool :=
  s.data.tails.any (fun t => sub.data.isPrefixOf t)

/-- The value of `parts.join('')`. -/
def join (parts : List String) : String := parts.foldl (fun acc p => acc ++ p) ""

/-! ## The dictionary service -/

/-- What `axios.get` on the dictionary service can produce. -/
inductive Reply where
  /-- the promise rejects: network error or a status outside 2xx (404 for an unknown word) -/
  | failed
  /-- a reply whose `data` is falsy -/
  | noData
  /-- a reply whose `data` is an array; for each element its `word` field, if it has one -/
  | entries (heads : List (Option String))
  deriving DecidableEq, Repr

/-- The expression `response.data && response.data[0].word === word` evaluated inside the
`try` block, as a truth value; `none` when the evaluation throws (the request was rejected,
or `response.data[0]` is `undefined`). -/
def dictionaryCheck : Reply → String → Option Bool
  | Reply.failed, _ => none
  | Reply.noData, _ => some false
  | Reply.entries [], _ => none
  | Reply.entries (head :: _), word => some (decide (head = some word))

/-- The function `checkWordInDictionary`: the `catch` block turns every exception into `false`. -/
def checkWordInDictionary (dict : String → Reply) (word : String) : Bool :=
  match dictionaryCheck (dict word) word with
  | some b => b
  | none => false

/-! ## State, effects and handlers -/

/-- The React state of `App`. -/
structure State where
  randomWord : String
  inputs : JSObject
  classes : JSObject
  submissionCount : Nat
  winState : String
  deriving DecidableEq, Repr

/-- Effects of a handler other than state updates. -/
inductive Effect where
  | alert (msg : String)
  | focus (index : Nat)
  | fetchData
  deriving DecidableEq, Repr

/-- The initial values given to `useState`. -/
def init : State :=
  { randomWord := "", inputs := [], classes := [], submissionCount := 0, winState := "" }

/-- The handler `handleChange(event, index)` of the cell with `name = letter(index+1)`,
where `value` is `event.target.value`. -/
def handleChange (s : State) (index : Nat) (value : String) : State × List Effect :=
  let name := index + 1
  ({ s with inputs := setProp s.inputs name value },
   if value.length = 1 ∧ index < 29 then [Effect.focus (index + 1)] else [])

/-- The keys `Object.keys(inputs).slice(startIndex, endIndex)` that `submit` reads. -/
def rowKeys (s : State) : List Nat :=
  let startIndex := s.submissionCount * 5
  let endIndex := startIndex + 5
  slice (objectKeys s.inputs) startIndex endIndex

/-- The string `userInput` of `submit`. -/
def userInput (s : State) : String :=
  join ((rowKeys s).map (fun key => getProp s.inputs key))

/-- The body of the `forEach` callback of `submit`: the class given to `letter` at `index`. -/
def classify (randomWord letter : String) (index : Nat) : String :=
  if some letter = charAt randomWord index then "green"
  else if includes randomWord letter then "yellow"
  else "gray"

/-- The object `newClasses` after the `forEach` loop over `keys`, started at `index`. -/
def scoreRow (randomWord : String) (inputs : JSObject) :
    List Nat → Nat → JSObject → JSObject
  | [], _, newClasses => newClasses
  | key :: keys, index, newClasses =>
    scoreRow randomWord inputs keys (index + 1)
      (setProp newClasses key (classify randomWord (getProp inputs key) index))

/-- The handler `submit`, with `dict` the behaviour of the dictionary service. -/
def submit (s : State) (dict : String → Reply) : State × List Effect :=
  let keys := rowKeys s
  if keys.length ≠ 5 then
    (s, [Effect.alert "Please enter a 5 letter word"])
  else
    let userInput := userInput s
    let isValidWord := checkWordInDictionary dict userInput
    if !isValidWord then
      (s, [Effect.alert "The word entered was not found in the dictionary."])
    else
      let newClasses := scoreRow s.randomWord s.inputs keys 0 []
      let newCount := s.submissionCount + 1
      let allGreen := keys.all (fun key => decide (getProp newClasses key = "green"))
      let winState₁ := if allGreen then "You Win!" else s.winState
      let winState₂ :=
        if s.submissionCount = 5 ∧ ¬ allGreen then "The word was " ++ s.randomWord
        else winState₁
      ({ s with classes := spread s.classes newClasses,
                submissionCount := newCount,
                winState := winState₂ },
       if newCount ≤ 5 then [Effect.focus (newCount * 5)] else [])

/-- The part of `submit` after `await checkWordInDictionary(userInput)`, for a call that
passed the five-key check.  The constants of the closure (`inputs`, `submissionCount`,
`randomWord`, and with them `keys`, `userInput`, `newClasses`, `allGreen`) are those of
`called`, the state of the render in which `submit` was called; the functional updates
`setClasses(prevClasses => ...)` and `setSubmissionCount(prevCount => ...)` act on `s`,
the state at the time the call resumes. -/
def submitResume (called : State) (dict : String → Reply) (s : State) : State × List Effect :=
  let keys := rowKeys called
  let userInput := userInput called
  let isValidWord := checkWordInDictionary dict userInput
  if !isValidWord then
    (s, [Effect.alert "The word entered was not found in the dictionary."])
  else
    let newClasses := scoreRow called.randomWord called.inputs keys 0 []
    let newCount := s.submissionCount + 1
    let allGreen := keys.all (fun key => decide (getProp newClasses key = "green"))
    let winState₁ := if allGreen then "You Win!" else s.winState
    let winState₂ :=
      if called.submissionCount = 5 ∧ ¬ allGreen then "The word was " ++ called.randomWord
      else winState₁
    ({ s with classes := spread s.classes newClasses,
              submissionCount := newCount,
              winState := winState₂ },
     if newCount ≤ 5 then [Effect.focus (newCount * 5)] else [])

/-- Two calls of `submit` made in the same state `s` (Submit clicked twice before the first
lookup returns), both past the five-key check: the state after the first call and then
the second have resumed. -/
def submitTwice (s : State) (dict : String → Reply) : State :=
  (submitResume s dict (submitResume s dict s).1).1

/-- The handler `reset`. -/
def reset (_s : State) : State × List Effect :=
  ({ randomWord := "", inputs := [], classes := [], submissionCount := 0, winState := "" },
   [Effect.fetchData])

/-- The `disabled` attribute of the cells of row `i`. -/
def disabled (s : State) (i : Nat) : Bool :=
  if s.submissionCount = i then false else true

/-- The `value` attribute of the cell named `letterN`. -/
def cellValue (s : State) (n : Nat) : String := getProp s.inputs n

/-- The `className` attribute of the cell named `letterN`. -/
def cellClass (s : State) (n : Nat) : String := getProp s.classes n

/-! ## Runs of the component -/

/-- The events of a session in which every handler, `submit` with its `await` included,
runs to completion before the next event. -/
inductive Event where
  /-- a call of `fetchData` ends with `setRandomWord(w)` -/
  | fetched (w : String)
  /-- the `onChange` event of the cell with the given index, with `event.target.value` -/
  | change (index : Nat) (value : String)
  /-- the Submit button or the Enter key, for a call of `submit` that returns before the next
  event, with the behaviour of the dictionary service -/
  | submit (dict : String → Reply)
  /-- the Reset button -/
  | reset

/-- The state after one event. -/
def step (s : State) : Event → State
  | Event.fetched w => { s with randomWord := w }
  | Event.change index value => (handleChange s index value).1
  | Event.submit dict => (submit s dict).1
  | Event.reset => (reset s).1

/-- The state after a sequence of events. -/
def run (s : State) (events : List Event) : State := events.foldl step s

/-- Whether the browser can deliver the event in state `s`: a cell fires `onChange` only when
it is not disabled, and `maxLength={1}` bounds the value it reports. -/
def Event.possible (s : State) : Event → Bool
  | Event.change index value =>
    decide (index < 30) && !disabled s (index / 5) && decide (value.length ≤ 1)
  | _ => true

/-- The states of a session: the initial state, and every state an event the browser can
deliver leads to. -/
inductive Reachable : State → Prop where
  | init : Reachable init
  | step {s : State} (e : Event) : Reachable s → e.possible s = true → Reachable (step s e)

/-- Whether `submit` gets past both of its checks in state `s`. -/
def accepts (s : State) (dict : String → Reply) : Bool :=
  decide ((rowKeys s).length = 5) && checkWordInDictionary dict (userInput s)

/-- The constant `allGreen` of `submit` in state `s`. -/
def allGreen (s : State) : Bool :=
  (rowKeys s).all (fun key =>
    decide (getProp (scoreRow s.randomWord s.inputs (rowKeys s) 0 []) key = "green"))

/-- Whether the events form one game played from state `s`: each can be delivered when its
turn comes, and none is a reset. -/
def gameRun : State → List Event → Bool
  | _, [] => true
  | _, Event.reset :: _ => false
  | s, e :: events => e.possible s && gameRun (step s e) events

/-- The rows accepted in the course of the events, in order: for each, the secret word it
was scored against and whether it came out all green. -/
def acceptedRows : State → List Event → List (String × Bool)
  | _, [] => []
  | s, Event.submit dict :: events =>
    if accepts s dict then
      (s.randomWord, allGreen s) :: acceptedRows (step s (Event.submit dict)) events
    else acceptedRows (step s (Event.submit dict)) events
  | s, e :: events => acceptedRows (step s e) events

/-- The scoring rule in the words of the specification, for a one-character letter at
position `i`: green if it equals the secret's character at `i`, otherwise yellow if it
occurs anywhere in the secret, otherwise gray. -/
def specScore (secret : List Char) (letter : Char) (i : Nat) : String :=
  if secret[i]? = some letter then "green"
  else if letter ∈ secret then "yellow"
  else "gray"

/-- The shape `inputs` has in a session: its keys are distinct names of cells, none
of a row beyond the active one, and those after the first `5 * submissionCount` belong to
the active row (the earlier ones were in place when those rows were submitted). -/
def WellFormed (s : State) : Prop :=
  (objectKeys s.inputs).Nodup ∧
  (∀ k ∈ objectKeys s.inputs, 1 ≤ k ∧ k ≤ 30 ∧ (k - 1) / 5 ≤ s.submissionCount) ∧
  s.submissionCount * 5 ≤ (objectKeys s.inputs).length ∧
  (∀ k ∈ (objectKeys s.inputs).drop (s.submissionCount * 5), (k - 1) / 5 = s.submissionCount)

/-! ## The word fetch -/

/-- How the `while` loop of `fetchData` ends. -/
inductive FetchResult where
  /-- the loop was left with `validWord` set: `setRandomWord(word)` -/
  | valid (word : String)
  /-- the loop was left with `words` empty: nothing is set -/
  | exhausted
  /-- the loop is still running after the given number of iterations -/
  | running
  deriving DecidableEq, Repr

/-- The `while (!validWord && words.length > 0)` loop of `fetchData`, run for at most `fuel`
iterations.  The value of `Math.floor(Math.random() * words.length)` in iteration `k` is
`draws k % words.length`.  Returns how the loop ends and the words looked up, in order. -/
def fetchLoop (dict : String → Reply) (draws : Nat → Nat) :
    Nat → Nat → List String → List String → FetchResult × List String
  | 0, _, words, queried =>
    if words.length > 0 then (FetchResult.running, queried) else (FetchResult.exhausted, queried)
  | fuel + 1, k, words, queried =>
    if words.length > 0 then
      let randomIndex := draws k % words.length
      let randomWord := words.getD randomIndex ""
      match dictionaryCheck (dict randomWord) randomWord with
      | some true => (FetchResult.valid randomWord, queried ++ [randomWord])
      | some false => fetchLoop dict draws fuel (k + 1) words (queried ++ [randomWord])
      | none =>
        fetchLoop dict draws fuel (k + 1) (words.eraseIdx randomIndex) (queried ++ [randomWord])
    else (FetchResult.exhausted, queried)

/-- The function `fetchData` on the word list `words` the word-list service returned. -/
def fetchData (dict : String → Reply) (draws : Nat → Nat) (fuel : Nat) (words : List String) :
    FetchResult × List String :=
  fetchLoop dict draws fuel 0 words []

/-! ## Sample sessions -/

/-- A dictionary service that knows every word: it answers with one entry whose headword is
the word asked for. -/
def echo : String → Reply := fun word => Reply.entries [some word]

/-- A dictionary service that is down: every request is rejected. -/
def offline : String → Reply := fun _ => Reply.failed

/-- A dictionary service that answers every request with status 200 and the entry of
another word (`hullo`). -/
def misspelt : String → Reply := fun _ => Reply.entries [some "hullo"]

/-- The events of typing `letters` from left to right into the cells of row `row`. -/
def typeRow (row : Nat) (letters : List String) : List Event :=
  letters.enum.map (fun p => Event.change (5 * row + p.1) p.2)

/-- The secret `train` arrives and `tarni` is typed into the first row. -/
def tarniTyped : List Event :=
  Event.fetched "train" :: typeRow 0 ["t", "a", "r", "n", "i"]

/-- The secret `train` arrives and `train` is typed into the first row. -/
def trainTyped : List Event :=
  Event.fetched "train" :: typeRow 0 ["t", "r", "a", "i", "n"]

/-- The secret `train` arrives, `words` is typed into the first row and its last letter is
deleted again: the `onChange` of cell 4 reports the empty value. -/
def letterDeleted : List Event :=
  Event.fetched "train" :: typeRow 0 ["w", "o", "r", "d", "s"] ++ [Event.change 4 ""]

/-- The secret `train` arrives and the first row is filled with `train`, the second cell
before the first. -/
def secondCellFirst : List Event :=
  [Event.fetched "train", Event.change 1 "r", Event.change 0 "t", Event.change 2 "a",
    Event.change 3 "i", Event.change 4 "n"]

/-- Typing `crane` into row `row` and submitting it to the dictionary `echo`. -/
def craneRow (row : Nat) : List Event :=
  typeRow row ["c", "r", "a", "n", "e"] ++ [Event.submit echo]

/-- The secret `train` is guessed in the first row, and five more rows are played. -/
def winThenPlayOn : List Event :=
  trainTyped ++ [Event.submit echo] ++ craneRow 1 ++ craneRow 2 ++ craneRow 3 ++ craneRow 4 ++
    craneRow 5

/-- The secret `train` arrives, `crane` is submitted in each of the first four rows and
typed into the fifth. -/
def fifthRowTyped : List Event :=
  Event.fetched "train" :: (craneRow 0 ++ craneRow 1 ++ craneRow 2 ++ craneRow 3 ++
    typeRow 4 ["c", "r", "a", "n", "e"])

/-- The secret `train` arrives, `crane` is submitted in each of the first five rows and
typed into the sixth. -/
def sixthRowTyped : List Event :=
  Event.fetched "train" :: (craneRow 0 ++ craneRow 1 ++ craneRow 2 ++ craneRow 3 ++ craneRow 4 ++
    typeRow 5 ["c", "r", "a", "n", "e"])

/-- The secret `train` arrives and `crane` is submitted in each of the six rows. -/
def sixMisses : List Event :=
  Event.fetched "train" :: (craneRow 0 ++ craneRow 1 ++ craneRow 2 ++ craneRow 3 ++ craneRow 4 ++
    craneRow 5)

/-! ## Objects -/

theorem getProp_cons_self (o : JSObject) (key : Nat) (v : String) :
    getProp ((key, v) :: o) key = v := by
  simp [getProp, List.lookup_cons]

theorem getProp_cons_ne (o : JSObject) {k key : Nat} (v : String) (h : key ≠ k) :
    getProp ((k, v) :: o) key = getProp o key := by
  have hb : (key == k) = false := by simpa using h
  simp [getProp, List.lookup_cons, hb]

theorem getProp_setProp_self (o : JSObject) (key : Nat) (value : String) :
    getProp (setProp o key value) key = value := by
  induction o with
  | nil => simp [setProp, getProp_cons_self]
  | cons kv rest ih =>
    obtain ⟨k, v⟩ := kv
    by_cases h : k = key
    · subst h
      simp [setProp, getProp_cons_self]
    · have h2 : key ≠ k := fun e => h e.symm
      simp [setProp, h, getProp_cons_ne _ _ h2, ih]

theorem getProp_setProp_ne (o : JSObject) {key other : Nat} (value : String)
    (h : other ≠ key) : getProp (setProp o key value) other = getProp o other := by
  induction o with
  | nil => simp [setProp, getProp_cons_ne _ _ h]
  | cons kv rest ih =>
    obtain ⟨k, v⟩ := kv
    by_cases hk : k = key
    · subst hk
      simp [setProp, getProp_cons_ne _ _ h]
    · by_cases ho : other = k
      · subst ho
        simp [setProp, hk, getProp_cons_self]
      · simp [setProp, hk, getProp_cons_ne _ _ ho, ih]

theorem objectKeys_setProp_of_mem (o : JSObject) {key : Nat} (value : String)
    (h : key ∈ objectKeys o) : objectKeys (setProp o key value) = objectKeys o := by
  induction o with
  | nil => simp [objectKeys] at h
  | cons kv rest ih =>
    obtain ⟨k, v⟩ := kv
    by_cases hk : k = key
    · simp [setProp, hk, objectKeys]
    · have hmem : key ∈ objectKeys rest := by
        simp only [objectKeys, List.map_cons, List.mem_cons] at h
        rcases h with h | h
        · exact absurd h.symm hk
        · exact h
      have := ih hmem
      simp only [objectKeys] at this
      simp [setProp, hk, objectKeys, this]

theorem objectKeys_setProp_of_not_mem (o : JSObject) {key : Nat} (value : String)
    (h : key ∉ objectKeys o) : objectKeys (setProp o key value) = objectKeys o ++ [key] := by
  induction o with
  | nil => simp [setProp, objectKeys]
  | cons kv rest ih =>
    obtain ⟨k, v⟩ := kv
    simp only [objectKeys, List.map_cons, List.mem_cons, not_or] at h
    have hk : k ≠ key := fun e => h.1 e.symm
    have := ih h.2
    simp only [objectKeys] at this
    simp [setProp, hk, objectKeys, this]

theorem mem_objectKeys_cons (o : JSObject) (k key : Nat) (v : String) :
    key ∈ objectKeys ((k, v) :: o) ↔ key = k ∨ key ∈ objectKeys o := by
  simp [objectKeys]

theorem getProp_spread (a b : JSObject) (key : Nat) (hb : (objectKeys b).Nodup) :
    getProp (spread a b) key = if key ∈ objectKeys b then getProp b key else getProp a key := by
  induction b generalizing a with
  | nil => simp [spread, objectKeys]
  | cons kv rest ih =>
    obtain ⟨k, v⟩ := kv
    have hb2 : k ∉ objectKeys rest ∧ (objectKeys rest).Nodup := by
      simpa [objectKeys] using hb
    have hrest := ih (setProp a k v) hb2.2
    have hfold : spread a ((k, v) :: rest) = spread (setProp a k v) rest := rfl
    rw [hfold, hrest]
    by_cases hk : key = k
    · subst hk
      rw [if_neg hb2.1, if_pos ((mem_objectKeys_cons _ _ _ _).2 (Or.inl rfl)),
        getProp_setProp_self, getProp_cons_self]
    · by_cases hm : key ∈ objectKeys rest
      · rw [if_pos hm, if_pos ((mem_objectKeys_cons _ _ _ _).2 (Or.inr hm)),
          getProp_cons_ne _ _ hk]
      · have hm2 : key ∉ objectKeys ((k, v) :: rest) := by
          rw [mem_objectKeys_cons]; tauto
        rw [if_neg hm, if_neg hm2, getProp_setProp_ne _ _ hk]

/-! ## Scoring a row -/

theorem objectKeys_scoreRow (randomWord : String) (inputs : JSObject) (keys : List Nat)
    (index : Nat) (acc : JSObject) (hacc : (objectKeys acc).Nodup) :
    (objectKeys (scoreRow randomWord inputs keys index acc)).Nodup := by
  induction keys generalizing index acc with
  | nil => simpa [scoreRow] using hacc
  | cons key keys ih =>
    simp only [scoreRow]
    apply ih
    by_cases h : key ∈ objectKeys acc
    · rw [objectKeys_setProp_of_mem _ _ h]; exact hacc
    · rw [objectKeys_setProp_of_not_mem _ _ h]
      exact List.Nodup.append hacc (List.nodup_singleton _) (by simpa using h)

theorem mem_objectKeys_setProp (o : JSObject) (key other : Nat) (value : String) :
    other ∈ objectKeys (setProp o key value) ↔ other ∈ objectKeys o ∨ other = key := by
  by_cases h : key ∈ objectKeys o
  · rw [objectKeys_setProp_of_mem _ _ h]
    constructor
    · exact Or.inl
    · rintro (h1 | h1)
      · exact h1
      · exact h1 ▸ h
  · rw [objectKeys_setProp_of_not_mem _ _ h]; simp

theorem mem_objectKeys_scoreRow (randomWord : String) (inputs : JSObject) (keys : List Nat)
    (index : Nat) (acc : JSObject) (key : Nat) :
    key ∈ objectKeys (scoreRow randomWord inputs keys index acc) ↔
      key ∈ objectKeys acc ∨ key ∈ keys := by
  induction keys generalizing index acc with
  | nil => simp [scoreRow]
  | cons k keys ih =>
    simp only [scoreRow]
    rw [ih, mem_objectKeys_setProp]
    simp only [List.mem_cons]
    tauto

theorem getProp_scoreRow_of_not_mem (randomWord : String) (inputs : JSObject) (keys : List Nat)
    (index : Nat) (acc : JSObject) {key : Nat} (h : key ∉ keys) :
    getProp (scoreRow randomWord inputs keys index acc) key = getProp acc key := by
  induction keys generalizing index acc with
  | nil => rfl
  | cons k keys ih =>
    simp only [List.mem_cons, not_or] at h
    simp only [scoreRow]
    rw [ih _ _ h.2, getProp_setProp_ne _ _ h.1]

theorem getProp_scoreRow (randomWord : String) (inputs : JSObject) (keys : List Nat)
    (index : Nat) (acc : JSObject) (hkeys : keys.Nodup) {i key : Nat}
    (hi : keys[i]? = some key) :
    getProp (scoreRow randomWord inputs keys index acc) key =
      classify randomWord (getProp inputs key) (index + i) := by
  induction keys generalizing index acc i with
  | nil => simp at hi
  | cons k keys ih =>
    rw [List.nodup_cons] at hkeys
    simp only [scoreRow]
    cases i with
    | zero =>
      simp only [List.getElem?_cons_zero, Option.some.injEq] at hi
      subst hi
      rw [getProp_scoreRow_of_not_mem _ _ _ _ _ hkeys.1, getProp_setProp_self]
      simp
    | succ j =>
      simp only [List.getElem?_cons_succ] at hi
      rw [ih (index + 1) _ hkeys.2 hi]
      congr 1
      omega

/-! ## Strings -/

theorem singleton_data (c : Char) : (String.singleton c).data = [c] := rfl

theorem singleton_injective {a b : Char} (h : String.singleton a = String.singleton b) :
    a = b := by
  have := congrArg String.data h
  simpa [singleton_data] using this

theorem charAt_eq_singleton (s : String) (i : Nat) (l : Char) :
    some (String.singleton l) = charAt s i ↔ s.data[i]? = some l := by
  unfold charAt
  cases h : s.data[i]? with
  | none => simp
  | some c =>
    simp only [Option.map_some', Option.some.injEq]
    constructor
    · intro e; exact (singleton_injective e).symm
    · intro e; rw [e]

theorem includes_singleton (s : String) (l : Char) :
    includes s (String.singleton l) = true ↔ l ∈ s.data := by
  unfold includes
  rw [singleton_data]
  generalize s.data = cs
  induction cs with
  | nil => simp [List.isPrefixOf]
  | cons c cs ih =>
    rw [List.tails, List.any_cons, Bool.or_eq_true, ih]
    simp only [List.isPrefixOf, Bool.and_true, beq_iff_eq, List.mem_cons]

theorem classify_singleton (randomWord : String) (l : Char) (i : Nat) :
    classify randomWord (String.singleton l) i = specScore randomWord.data l i := by
  unfold classify specScore
  by_cases h1 : randomWord.data[i]? = some l
  · rw [if_pos ((charAt_eq_singleton _ _ _).2 h1), if_pos h1]
  · rw [if_neg (fun e => h1 ((charAt_eq_singleton _ _ _).1 e)), if_neg h1]
    by_cases h2 : l ∈ randomWord.data
    · rw [if_pos ((includes_singleton _ _).2 h2), if_pos h2]
    · rw [if_neg (fun e => h2 ((includes_singleton _ _).1 e)), if_neg h2]

/-! ## The two outcomes of `submit` -/

theorem submit_of_accepts {s : State} {dict : String → Reply} (h : accepts s dict = true) :
    (submit s dict).1 =
      { s with
        classes := spread s.classes (scoreRow s.randomWord s.inputs (rowKeys s) 0 [])
        submissionCount := s.submissionCount + 1
        winState :=
          if s.submissionCount = 5 ∧ allGreen s = false then "The word was " ++ s.randomWord
          else if allGreen s = true then "You Win!" else s.winState } := by
  simp only [accepts, Bool.and_eq_true, decide_eq_true_eq] at h
  simp [submit, h.1, h.2, allGreen]

theorem submit_of_not_accepts {s : State} {dict : String → Reply}
    (h : accepts s dict = false) : (submit s dict).1 = s := by
  simp only [accepts, Bool.and_eq_false_iff, decide_eq_false_iff_not] at h
  unfold submit
  by_cases h5 : (rowKeys s).length = 5
  · have hd : checkWordInDictionary dict (userInput s) = false := by
      rcases h with h | h
      · exact absurd h5 h
      · exact h
    simp [h5, hd]
  · simp [h5]

theorem cellClass_submit (s : State) (dict : String → Reply)
    (hobj : (objectKeys s.inputs).Nodup) (h : accepts s dict = true) {i key : Nat}
    (hi : (rowKeys s)[i]? = some key) :
    cellClass (submit s dict).1 key = classify s.randomWord (getProp s.inputs key) i := by
  have hkeys : (rowKeys s).Nodup := by
    unfold rowKeys slice
    exact ((hobj.sublist (List.drop_sublist _ _)).sublist (List.take_sublist _ _))
  have hmem : key ∈ rowKeys s := List.getElem?_mem hi
  rw [submit_of_accepts h]
  simp only [cellClass]
  rw [getProp_spread _ _ _ (objectKeys_scoreRow _ _ _ _ _ (by simp [objectKeys])),
    if_pos ((mem_objectKeys_scoreRow _ _ _ _ _ _).2 (Or.inr hmem)),
    getProp_scoreRow _ _ _ _ _ hkeys hi, Nat.zero_add]

/-! ## The shape of `inputs` in reachable states -/

theorem length_le_of_nodup_of_bounds {l : List Nat} {a n : Nat} (hl : l.Nodup)
    (h : ∀ k ∈ l, a < k ∧ k ≤ a + n) : l.length ≤ n := by
  have hsub : l ⊆ List.range' (a + 1) n := by
    intro k hk
    rw [List.mem_range'_1]
    have := h k hk
    omega
  have := (hl.subperm hsub).length_le
  simpa using this

theorem mem_of_nodup_of_bounds_of_length {l : List Nat} {a n : Nat} (hl : l.Nodup)
    (h : ∀ k ∈ l, a < k ∧ k ≤ a + n) (hlen : l.length = n) {k : Nat} (hk : a < k ∧ k ≤ a + n) :
    k ∈ l := by
  have hsub : l ⊆ List.range' (a + 1) n := by
    intro j hj
    rw [List.mem_range'_1]
    have := h j hj
    omega
  have hperm : l.Perm (List.range' (a + 1) n) :=
    (hl.subperm hsub).perm_of_length_le (by simp [hlen])
  rw [hperm.mem_iff, List.mem_range'_1]
  omega

theorem wellFormed_init : WellFormed init := by
  simp [WellFormed, init, objectKeys]

theorem WellFormed.length_le {s : State} (h : WellFormed s) :
    (objectKeys s.inputs).length ≤ 30 := by
  apply length_le_of_nodup_of_bounds (a := 0) h.1
  intro k hk
  have := h.2.1 k hk
  omega

theorem WellFormed.count_le {s : State} (h : WellFormed s) : s.submissionCount ≤ 6 := by
  have h1 := h.length_le
  have h2 := h.2.2.1
  omega

theorem WellFormed.rowKeys_eq {s : State} (h : WellFormed s) :
    rowKeys s = (objectKeys s.inputs).drop (s.submissionCount * 5) := by
  have hnodup : ((objectKeys s.inputs).drop (s.submissionCount * 5)).Nodup :=
    h.1.sublist (List.drop_sublist _ _)
  have hlen : ((objectKeys s.inputs).drop (s.submissionCount * 5)).length ≤ 5 := by
    apply length_le_of_nodup_of_bounds (a := s.submissionCount * 5) hnodup
    intro k hk
    have h1 := h.2.2.2 k hk
    have h2 := h.2.1 k (List.mem_of_mem_drop hk)
    omega
  unfold rowKeys slice
  simp only [Nat.add_sub_cancel_left]
  exact List.take_of_length_le hlen

theorem WellFormed.length_eq {s : State} (h : WellFormed s) :
    (objectKeys s.inputs).length = 5 * s.submissionCount + (rowKeys s).length := by
  rw [h.rowKeys_eq, List.length_drop]
  have := h.2.2.1
  omega

theorem WellFormed.rowKeys_bounds {s : State} (h : WellFormed s) {k : Nat}
    (hk : k ∈ rowKeys s) : 5 * s.submissionCount < k ∧ k ≤ 5 * s.submissionCount + 5 := by
  rw [h.rowKeys_eq] at hk
  have h1 := h.2.2.2 k hk
  have h2 := h.2.1 k (List.mem_of_mem_drop hk)
  omega

theorem WellFormed.rowKeys_nodup {s : State} (h : WellFormed s) : (rowKeys s).Nodup := by
  rw [h.rowKeys_eq]
  exact h.1.sublist (List.drop_sublist _ _)

theorem WellFormed.rowKeys_length_le {s : State} (h : WellFormed s) :
    (rowKeys s).length ≤ 5 :=
  length_le_of_nodup_of_bounds h.rowKeys_nodup (fun _ hk => h.rowKeys_bounds hk)

theorem WellFormed.mem_rowKeys {s : State} (h : WellFormed s) (hfull : (rowKeys s).length = 5)
    {j : Nat} (hj : j < 5) : 5 * s.submissionCount + j + 1 ∈ rowKeys s :=
  mem_of_nodup_of_bounds_of_length h.rowKeys_nodup (fun _ hk => h.rowKeys_bounds hk) hfull
    (by omega)

theorem WellFormed.rowKeys_of_count_six {s : State} (h : WellFormed s)
    (h6 : s.submissionCount = 6) : rowKeys s = [] := by
  have h1 := h.length_eq
  have h2 := h.length_le
  apply List.eq_nil_of_length_eq_zero
  omega

theorem wellFormed_fetched {s : State} (h : WellFormed s) (w : String) :
    WellFormed { s with randomWord := w } := h

theorem wellFormed_handleChange {s : State} (h : WellFormed s) {index : Nat} (value : String)
    (hindex : index < 30) (hrow : index / 5 = s.submissionCount) :
    WellFormed (handleChange s index value).1 := by
  obtain ⟨h1, h2, h3, h4⟩ := h
  by_cases hmem : index + 1 ∈ objectKeys s.inputs
  · have hk : objectKeys (setProp s.inputs (index + 1) value) = objectKeys s.inputs :=
      objectKeys_setProp_of_mem _ _ hmem
    simp only [WellFormed, handleChange, hk]
    exact ⟨h1, h2, h3, h4⟩
  · have hk : objectKeys (setProp s.inputs (index + 1) value) = objectKeys s.inputs ++ [index + 1] :=
      objectKeys_setProp_of_not_mem _ _ hmem
    simp only [WellFormed, handleChange, hk]
    refine ⟨List.Nodup.append h1 (List.nodup_singleton _) (by simpa using hmem), ?_, ?_, ?_⟩
    · intro k hk2
      rw [List.mem_append, List.mem_singleton] at hk2
      rcases hk2 with hk2 | hk2
      · exact h2 k hk2
      · subst hk2
        refine ⟨by omega, by omega, ?_⟩
        simp only [Nat.add_sub_cancel]
        omega
    · rw [List.length_append]
      omega
    · intro k hk2
      rw [List.drop_append_of_le_length h3, List.mem_append, List.mem_singleton] at hk2
      rcases hk2 with hk2 | hk2
      · exact h4 k hk2
      · subst hk2
        simp only [Nat.add_sub_cancel]
        exact hrow

theorem wellFormed_submit {s : State} (h : WellFormed s) (dict : String → Reply) :
    WellFormed (submit s dict).1 := by
  cases hacc : accepts s dict with
  | false => rw [submit_of_not_accepts hacc]; exact h
  | true =>
    rw [submit_of_accepts hacc]
    have hfull : (rowKeys s).length = 5 := by
      simp only [accepts, Bool.and_eq_true, decide_eq_true_eq] at hacc
      exact hacc.1
    have hlen := h.length_eq
    obtain ⟨h1, h2, h3, h4⟩ := h
    refine ⟨h1, ?_, ?_, ?_⟩
    · intro k hk
      have := h2 k hk
      simp only
      omega
    · simp only
      omega
    · intro k hk
      simp only at hk
      rw [List.drop_eq_nil_of_le (by omega)] at hk
      simp at hk

theorem wellFormed_step {s : State} (h : WellFormed s) (e : Event) (he : e.possible s = true) :
    WellFormed (step s e) := by
  cases e with
  | fetched w => exact wellFormed_fetched h w
  | change index value =>
    simp only [Event.possible, disabled, Bool.and_eq_true, decide_eq_true_eq,
      Bool.not_eq_true'] at he
    have hrow : index / 5 = s.submissionCount := by
      by_contra hne
      have := he.1.2
      rw [if_neg (fun e => hne e.symm)] at this
      exact Bool.noConfusion this
    exact wellFormed_handleChange h value he.1.1 hrow
  | submit dict => exact wellFormed_submit h dict
  | reset => exact wellFormed_init

theorem Reachable.wellFormed {s : State} (h : Reachable s) : WellFormed s := by
  induction h with
  | init => exact wellFormed_init
  | step e _ he ih => exact wellFormed_step ih e he

/-! ## Games: runs without a reset -/

theorem run_cons (s : State) (e : Event) (events : List Event) :
    run s (e :: events) = run (step s e) events := rfl

theorem gameRun_cons {s : State} {e : Event} {events : List Event}
    (h : gameRun s (e :: events) = true) :
    e.possible s = true ∧ gameRun (step s e) events = true ∧ e ≠ Event.reset := by
  cases e with
  | reset => simp [gameRun] at h
  | fetched w => simpa [gameRun] using h
  | change index value => simpa [gameRun] using h
  | submit dict => simpa [gameRun] using h

theorem reachable_run {s : State} {events : List Event} (hs : Reachable s)
    (h : gameRun s events = true) : Reachable (run s events) := by
  induction events generalizing s with
  | nil => exact hs
  | cons e events ih =>
    obtain ⟨h1, h2, _⟩ := gameRun_cons h
    rw [run_cons]
    exact ih (Reachable.step e hs h1) h2

theorem acceptedRows_submit_of_accepts {s : State} {dict : String → Reply}
    (events : List Event) (h : accepts s dict = true) :
    acceptedRows s (Event.submit dict :: events) =
      (s.randomWord, allGreen s) :: acceptedRows (step s (Event.submit dict)) events := by
  simp [acceptedRows, h]

theorem acceptedRows_submit_of_not_accepts {s : State} {dict : String → Reply}
    (events : List Event) (h : accepts s dict = false) :
    acceptedRows s (Event.submit dict :: events) = acceptedRows s events := by
  have hs : step s (Event.submit dict) = s := submit_of_not_accepts h
  simp [acceptedRows, h, hs]

theorem count_run {s : State} {events : List Event} (h : gameRun s events = true) :
    (run s events).submissionCount = s.submissionCount + (acceptedRows s events).length := by
  induction events generalizing s with
  | nil => simp [run, acceptedRows]
  | cons e events ih =>
    obtain ⟨_, h2, h3⟩ := gameRun_cons h
    rw [run_cons, ih h2]
    cases e with
    | reset => exact absurd rfl h3
    | fetched w => simp [acceptedRows, step]
    | change index value => simp [acceptedRows, step, handleChange]
    | submit dict =>
      cases hacc : accepts s dict with
      | true =>
        rw [acceptedRows_submit_of_accepts _ hacc]
        simp only [step, submit_of_accepts hacc, List.length_cons]
        omega
      | false =>
        rw [acceptedRows_submit_of_not_accepts _ hacc]
        simp only [step, submit_of_not_accepts hacc]

theorem winState_run_of_no_rows {s : State} {events : List Event}
    (h : gameRun s events = true) (hrows : acceptedRows s events = []) :
    (run s events).winState = s.winState := by
  induction events generalizing s with
  | nil => rfl
  | cons e events ih =>
    obtain ⟨_, h2, h3⟩ := gameRun_cons h
    rw [run_cons]
    cases e with
    | reset => exact absurd rfl h3
    | fetched w => exact ih h2 (by simpa [acceptedRows] using hrows)
    | change index value => exact ih h2 (by simpa [acceptedRows] using hrows)
    | submit dict =>
      cases hacc : accepts s dict with
      | true =>
        rw [acceptedRows_submit_of_accepts _ hacc] at hrows
        exact absurd hrows (List.cons_ne_nil _ _)
      | false =>
        rw [acceptedRows_submit_of_not_accepts _ hacc] at hrows
        have hs : step s (Event.submit dict) = s := submit_of_not_accepts hacc
        rw [hs] at h2 ⊢
        exact ih h2 hrows

theorem reveal_run {s : State} {events : List Event} (h : gameRun s events = true)
    (hsix : s.submissionCount + (acceptedRows s events).length = 6)
    (hne : acceptedRows s events ≠ [])
    (hnone : ∀ r ∈ acceptedRows s events, r.2 = false) :
    ∃ secret, (acceptedRows s events).getLast? = some (secret, false) ∧
      (run s events).winState = "The word was " ++ secret := by
  induction events generalizing s with
  | nil => exact absurd rfl hne
  | cons e events ih =>
    obtain ⟨_, h2, h3⟩ := gameRun_cons h
    rw [run_cons]
    cases e with
    | reset => exact absurd rfl h3
    | fetched w =>
      have hr : acceptedRows s (Event.fetched w :: events) =
          acceptedRows (step s (Event.fetched w)) events := by simp [acceptedRows]
      rw [hr] at hsix hne hnone ⊢
      exact ih h2 hsix hne hnone
    | change index value =>
      have hr : acceptedRows s (Event.change index value :: events) =
          acceptedRows (step s (Event.change index value)) events := by simp [acceptedRows]
      rw [hr] at hsix hne hnone ⊢
      exact ih h2 (by simpa [step, handleChange] using hsix) hne hnone
    | submit dict =>
      cases hacc : accepts s dict with
      | false =>
        have hs : step s (Event.submit dict) = s := submit_of_not_accepts hacc
        rw [acceptedRows_submit_of_not_accepts _ hacc] at hsix hne hnone ⊢
        rw [hs] at h2 ⊢
        exact ih h2 hsix hne hnone
      | true =>
        rw [acceptedRows_submit_of_accepts _ hacc] at hsix hne hnone ⊢
        have hgreen : allGreen s = false := hnone (s.randomWord, allGreen s) (List.mem_cons_self _ _)
        by_cases hrest : acceptedRows (step s (Event.submit dict)) events = []
        · rw [hrest] at hsix ⊢
          have hc : s.submissionCount = 5 := by simpa using hsix
          refine ⟨s.randomWord, by simp [hgreen], ?_⟩
          rw [winState_run_of_no_rows h2 hrest]
          simp [step, submit_of_accepts hacc, hc, hgreen]
        · have hcount : (step s (Event.submit dict)).submissionCount = s.submissionCount + 1 := by
            simp [step, submit_of_accepts hacc]
          obtain ⟨secret, hlast, hwin⟩ := ih h2
            (by rw [hcount]; simp only [List.length_cons] at hsix; omega) hrest
            (fun r hr => hnone r (List.mem_cons_of_mem _ hr))
          refine ⟨secret, ?_, hwin⟩
          rw [List.getLast?_cons, hlast]
          rfl

/-! ## Scoring (C1, C2, C10) -/

theorem accepts_of_read {s : State} {dict : String → Reply} {letters : List Char}
    (hfive : letters.length = 5)
    (hread : (rowKeys s).map (fun key => getProp s.inputs key) = letters.map String.singleton)
    (hvalid : checkWordInDictionary dict (userInput s) = true) : accepts s dict = true := by
  have hlen := congrArg List.length hread
  simp only [List.length_map] at hlen
  simp [accepts, hlen, hfive, hvalid]

theorem letter_of_read {s : State} {letters : List Char}
    (hread : (rowKeys s).map (fun key => getProp s.inputs key) = letters.map String.singleton)
    {i key : Nat} {l : Char} (hkey : (rowKeys s)[i]? = some key)
    (hl : letters[i]? = some l) : getProp s.inputs key = String.singleton l := by
  have h := congrArg (fun xs => xs[i]?) hread
  simp only [List.getElem?_map, hkey, hl, Option.map_some', Option.some.injEq] at h
  exact h

theorem score_of_read {s : State} {dict : String → Reply} {letters : List Char}
    (hobj : (objectKeys s.inputs).Nodup)
    (hfive : letters.length = 5)
    (hread : (rowKeys s).map (fun key => getProp s.inputs key) = letters.map String.singleton)
    (hvalid : checkWordInDictionary dict (userInput s) = true)
    {i key : Nat} {l : Char} (hkey : (rowKeys s)[i]? = some key) (hl : letters[i]? = some l) :
    cellClass (submit s dict).1 key = specScore s.randomWord.data l i := by
  rw [cellClass_submit s dict hobj (accepts_of_read hfive hread hvalid) hkey,
    letter_of_read hread hkey hl, classify_singleton]

theorem lt_length_of_getElem? {α : Type} {xs : List α} {i : Nat} {a : α}
    (h : xs[i]? = some a) : i < xs.length := by
  by_contra hge
  rw [List.getElem?_eq_none (Nat.le_of_not_lt hge)] at h
  exact Option.noConfusion h

/-- C1. When `submit` accepts a row whose five letters, as it reads them, are the single
characters `letters`, the class it records for the cell read at position `i` is given by the
rule of the specification applied to that position alone: green if the letter equals the
secret's character at `i`, otherwise yellow if the letter occurs in the secret, otherwise
gray.  So a letter equal to the secret's character at its position is green, and a guess
with no letter of the secret is gray at all five positions. -/
theorem submit_scores_each_position (s : State) (dict : String → Reply) (letters : List Char)
    (hobj : (objectKeys s.inputs).Nodup)
    (hfive : letters.length = 5)
    (hread : (rowKeys s).map (fun key => getProp s.inputs key) = letters.map String.singleton)
    (hvalid : checkWordInDictionary dict (userInput s) = true) :
    (∀ (i key : Nat) (l : Char), (rowKeys s)[i]? = some key → letters[i]? = some l →
        cellClass (submit s dict).1 key = specScore s.randomWord.data l i) ∧
    (∀ (i key : Nat) (l : Char), (rowKeys s)[i]? = some key → letters[i]? = some l →
        s.randomWord.data[i]? = some l → cellClass (submit s dict).1 key = "green") ∧
    ((∀ l ∈ letters, l ∉ s.randomWord.data) →
        ∀ key ∈ rowKeys s, cellClass (submit s dict).1 key = "gray") := by
  refine ⟨fun i key l hkey hl => score_of_read hobj hfive hread hvalid hkey hl, ?_, ?_⟩
  · intro i key l hkey hl hsame
    rw [score_of_read hobj hfive hread hvalid hkey hl, specScore, if_pos hsame]
  · intro hnone key hkey
    obtain ⟨i, hi⟩ := List.getElem?_of_mem hkey
    have hlen := congrArg List.length hread
    simp only [List.length_map] at hlen
    have hlt : i < letters.length := hlen ▸ lt_length_of_getElem? hi
    have hl : letters[i]? = some letters[i] := List.getElem?_eq_getElem hlt
    have hnot : letters[i] ∉ s.randomWord.data := hnone _ (List.getElem_mem hlt)
    rw [score_of_read hobj hfive hread hvalid hi hl, specScore, if_neg, if_neg hnot]
    intro hsame
    exact hnot (List.getElem?_mem hsame)

/-- C1, at the scenario of the specification: secret `train`, guess `tarni`. -/
theorem submit_scores_each_position_witness :
    cellClass (submit (run init tarniTyped) echo).1 1 = "green" ∧
    cellClass (submit (run init tarniTyped) echo).1 2 = specScore "train".data 'a' 1 ∧
    cellClass (submit (run init tarniTyped) echo).1 5 = specScore "train".data 'i' 4 :=
  have h := submit_scores_each_position (run init tarniTyped) echo ['t', 'a', 'r', 'n', 'i']
    (by decide) (by decide) (by decide) (by decide)
  ⟨h.2.1 0 1 't' (by decide) (by decide) (by decide), h.1 1 2 'a' (by decide) (by decide),
    h.1 4 5 'i' (by decide) (by decide)⟩

/-- In a reachable state whose secret has five characters, when the five letters in the
order `submit` reads them (the order in which the cells were first filled) are the
characters of the secret and the dictionary confirms the word, `submit` classifies every
cell of the active row green and sets the outcome to `You Win!`, at every submission
count. -/
theorem exact_guess_wins (s : State) (dict : String → Reply)
    (hs : Reachable s)
    (hsecret : s.randomWord.data.length = 5)
    (hread : (rowKeys s).map (fun key => getProp s.inputs key) =
      s.randomWord.data.map String.singleton)
    (hvalid : checkWordInDictionary dict (userInput s) = true) :
    s.submissionCount ≤ 5 ∧
    (∀ j, j < 5 → cellClass (submit s dict).1 (5 * s.submissionCount + j + 1) = "green") ∧
    (submit s dict).1.winState = "You Win!" := by
  have hwf := hs.wellFormed
  have hacc := accepts_of_read hsecret hread hvalid
  have hfull : (rowKeys s).length = 5 := by
    have hlen := congrArg List.length hread
    simpa [hsecret] using hlen
  have hgreen : ∀ key ∈ rowKeys s, cellClass (submit s dict).1 key = "green" := by
    intro key hkey
    obtain ⟨i, hi⟩ := List.getElem?_of_mem hkey
    have hlt : i < s.randomWord.data.length := by
      rw [hsecret, ← hfull]
      exact lt_length_of_getElem? hi
    have hl := List.getElem?_eq_getElem hlt
    rw [score_of_read hwf.1 hsecret hread hvalid hi hl, specScore, if_pos hl]
  have hall : allGreen s = true := by
    unfold allGreen
    rw [List.all_eq_true]
    intro key hkey
    obtain ⟨i, hi⟩ := List.getElem?_of_mem hkey
    have h1 := hgreen key hkey
    rw [cellClass_submit s dict hwf.1 hacc hi] at h1
    rw [getProp_scoreRow _ _ _ _ _ hwf.rowKeys_nodup hi, Nat.zero_add, h1]
    rfl
  refine ⟨?_, ?_, ?_⟩
  · have h1 := hwf.length_eq
    have h2 := hwf.length_le
    omega
  · intro j hj
    exact hgreen _ (hwf.mem_rowKeys hfull hj)
  · rw [submit_of_accepts hacc]
    simp [hall]

/-- The secret `train` typed from left to right into the first row wins. -/
theorem exact_guess_wins_witness :
    cellClass (submit (run init trainTyped) echo).1 1 = "green" ∧
    cellClass (submit (run init trainTyped) echo).1 5 = "green" ∧
    (submit (run init trainTyped) echo).1.winState = "You Win!" :=
  have h := exact_guess_wins (run init trainTyped) echo
    (reachable_run Reachable.init (by decide)) (by decide) (by decide) (by decide)
  ⟨h.2.1 0 (by decide), h.2.1 4 (by decide), h.2.2⟩

/-- C2, evaluated where it fails: the secret is `train` and the first row holds `t`, `r`,
`a`, `i`, `n` in its cells 1 to 5, the second cell having been filled first; the dictionary
confirms the word `submit` asks for and the row is accepted, yet cells 1 and 2 are
classified yellow, the row is not all green and the outcome is not `You Win!`. -/
theorem guess_equal_to_secret_does_not_win :
    (run init secondCellFirst).randomWord = "train" ∧
    (run init secondCellFirst).submissionCount = 0 ∧
    [1, 2, 3, 4, 5].map (cellValue (run init secondCellFirst)) =
      "train".data.map String.singleton ∧
    accepts (run init secondCellFirst) echo = true ∧
    (submit (run init secondCellFirst) echo).1.submissionCount = 1 ∧
    cellClass (submit (run init secondCellFirst) echo).1 1 = "yellow" ∧
    cellClass (submit (run init secondCellFirst) echo).1 2 = "yellow" ∧
    allGreen (run init secondCellFirst) = false ∧
    (submit (run init secondCellFirst) echo).1.winState ≠ "You Win!" :=
  ⟨by decide, by decide, by decide, by decide, by decide, by decide, by decide, by decide,
    by decide⟩

/-! ## Rejections (C3, C5) -/

/-- C5. When the active row has five keys and the dictionary lookup of the word read from it
does not confirm the word (the request is rejected, the reply has no data or no entry, or
its first entry has another headword or none), `checkWordInDictionary` returns false, and
`submit` alerts that the word was not found and leaves the whole state as it was. -/
theorem unconfirmed_word_is_rejected (s : State) (dict : String → Reply)
    (hrow : (rowKeys s).length = 5)
    (hreply : dict (userInput s) = Reply.failed ∨ dict (userInput s) = Reply.noData ∨
      dict (userInput s) = Reply.entries [] ∨
      ∃ head rest, dict (userInput s) = Reply.entries (head :: rest) ∧
        head ≠ some (userInput s)) :
    checkWordInDictionary dict (userInput s) = false ∧
    submit s dict =
      (s, [Effect.alert "The word entered was not found in the dictionary."]) := by
  have hcheck : checkWordInDictionary dict (userInput s) = false := by
    unfold checkWordInDictionary
    rcases hreply with h | h | h | ⟨head, rest, h, hne⟩
    · rw [h]; rfl
    · rw [h]; rfl
    · rw [h]; rfl
    · rw [h]; simp [dictionaryCheck, hne]
  refine ⟨hcheck, ?_⟩
  simp [submit, hrow, hcheck]

/-- C5, at a full row and a dictionary service that is down. -/
theorem unconfirmed_word_is_rejected_witness :
    checkWordInDictionary offline (userInput (run init tarniTyped)) = false ∧
    submit (run init tarniTyped) offline =
      (run init tarniTyped, [Effect.alert "The word entered was not found in the dictionary."]) :=
  unconfirmed_word_is_rejected (run init tarniTyped) offline (by decide) (Or.inl rfl)

/-- C3, evaluated where it fails: after `words` is typed and its last letter deleted, the
active row holds four letters (cell 5 is empty), yet `submit` finds five keys, validates the
four-letter word `word`, scores the row and moves on to the next row, without the alert
that asks for five letters; with a dictionary that does not confirm `word` the alert is the
one for a word that was not found. -/
theorem deleted_letter_is_submitted :
    Reachable (run init letterDeleted) ∧
    cellValue (run init letterDeleted) 5 = "" ∧
    userInput (run init letterDeleted) = "word" ∧
    (submit (run init letterDeleted) echo).2 = [Effect.focus 5] ∧
    (submit (run init letterDeleted) echo).1.submissionCount = 1 ∧
    (submit (run init letterDeleted) echo).1.classes =
      [(1, "gray"), (2, "gray"), (3, "yellow"), (4, "gray"), (5, "yellow")] ∧
    (submit (run init letterDeleted) offline).2 =
      [Effect.alert "The word entered was not found in the dictionary."] :=
  ⟨reachable_run Reachable.init (by decide), by decide, by decide, by decide, by decide,
    by decide, by decide⟩

/-- C10, evaluated where it fails: the first row spells the secret `train` from left to
right, its second cell having been filled first; `submit` validates and scores `rtain`,
classifies cells 1 and 2 yellow, and the player does not win. -/
theorem out_of_order_row_is_misread :
    Reachable (run init secondCellFirst) ∧
    [1, 2, 3, 4, 5].map (cellValue (run init secondCellFirst)) = ["t", "r", "a", "i", "n"] ∧
    userInput (run init secondCellFirst) = "rtain" ∧
    [1, 2, 3, 4, 5].map (cellClass (submit (run init secondCellFirst) echo).1) =
      ["yellow", "yellow", "green", "green", "green"] ∧
    (submit (run init secondCellFirst) echo).1.winState = "" :=
  ⟨reachable_run Reachable.init (by decide), by decide, by decide, by decide, by decide⟩

/-! ## Reset (C6) -/

/-- C6. From every state `reset` yields submission count 0, no cell values, no classes, the
empty outcome and the empty secret, and calls `fetchData`; the result is the same whatever
state it was applied to. -/
theorem reset_restores_initial_state (s t : State) :
    (reset s).1.submissionCount = 0 ∧ (reset s).1.inputs = [] ∧ (reset s).1.classes = [] ∧
    (reset s).1.winState = "" ∧ (reset s).1.randomWord = "" ∧
    (∀ n, cellValue (reset s).1 n = "" ∧ cellClass (reset s).1 n = "") ∧
    (reset s).2 = [Effect.fetchData] ∧ reset s = reset t :=
  ⟨rfl, rfl, rfl, rfl, rfl, fun _ => ⟨rfl, rfl⟩, rfl, rfl⟩

/-! ## Progress and the end of the game (C4, C7, C9) -/

theorem submit_of_count_six {s : State} (hs : Reachable s) (h6 : s.submissionCount = 6)
    (dict : String → Reply) :
    submit s dict = (s, [Effect.alert "Please enter a 5 letter word"]) := by
  simp [submit, hs.wellFormed.rowKeys_of_count_six h6]

/-- C9. In every reachable state the submission count is at most 6: `inputs` holds exactly
five keys for each submitted row and, after them, the keys of the active row, which are at
most five names of cells of that row; at count 6 there is no such key, and `submit` rejects
with the alert that asks for five letters, leaving the state as it was. -/
theorem progress_at_most_six (s : State) (hs : Reachable s) :
    s.submissionCount ≤ 6 ∧
    (objectKeys s.inputs).length = 5 * s.submissionCount + (rowKeys s).length ∧
    (rowKeys s).length ≤ 5 ∧
    (∀ k ∈ rowKeys s, 1 ≤ k ∧ (k - 1) / 5 = s.submissionCount) ∧
    (s.submissionCount = 6 →
      rowKeys s = [] ∧
      ∀ dict, submit s dict = (s, [Effect.alert "Please enter a 5 letter word"])) := by
  have hwf := hs.wellFormed
  refine ⟨hwf.count_le, hwf.length_eq, hwf.rowKeys_length_le, ?_, ?_⟩
  · intro k hk
    have := hwf.rowKeys_bounds hk
    omega
  · intro h6
    exact ⟨hwf.rowKeys_of_count_six h6, submit_of_count_six hs h6⟩

/-- C9, at the state after six submitted rows. -/
theorem progress_at_most_six_witness :
    (run init sixMisses).submissionCount ≤ 6 ∧
    (objectKeys (run init sixMisses).inputs).length =
      5 * (run init sixMisses).submissionCount + (rowKeys (run init sixMisses)).length ∧
    submit (run init sixMisses) echo =
      (run init sixMisses, [Effect.alert "Please enter a 5 letter word"]) :=
  have h := progress_at_most_six (run init sixMisses) (reachable_run Reachable.init (by decide))
  ⟨h.1, h.2.1, (h.2.2.2.2 (by decide)).2 echo⟩

theorem submit_eq_submitResume (s : State) (dict : String → Reply)
    (h : (rowKeys s).length = 5) : submit s dict = submitResume s dict s := by
  simp [submit, submitResume, h]

/-- C4 as stated fails when calls of `submit` overlap.  Secret `train`, `crane` in every row.
With four rows accepted and the fifth typed, Submit is clicked twice before the first
lookup returns: both calls pass the five-key check and both lookups confirm the word, so
six rows have been accepted, none of them all green; both calls saw `submissionCount` 4,
so the count is 6 and the outcome is still empty.  With five rows accepted and the sixth
typed, the first of two such calls gives the sixth accepted row and the reveal, and the
second is not rejected: it raises the count to 7. -/
theorem overlapping_submits_miss_the_loss :
    (gameRun init fifthRowTyped = true ∧
      acceptedRows init fifthRowTyped =
        [("train", false), ("train", false), ("train", false), ("train", false)] ∧
      (rowKeys (run init fifthRowTyped)).length = 5 ∧
      checkWordInDictionary echo (userInput (run init fifthRowTyped)) = true ∧
      allGreen (run init fifthRowTyped) = false ∧
      (submitResume (run init fifthRowTyped) echo (run init fifthRowTyped)).1.submissionCount
        = 5 ∧
      (submitTwice (run init fifthRowTyped) echo).submissionCount = 6 ∧
      (submitTwice (run init fifthRowTyped) echo).winState = "" ∧
      (submitTwice (run init fifthRowTyped) echo).winState ≠ "The word was train") ∧
    (gameRun init sixthRowTyped = true ∧
      (acceptedRows init sixthRowTyped).length = 5 ∧
      (rowKeys (run init sixthRowTyped)).length = 5 ∧
      allGreen (run init sixthRowTyped) = false ∧
      (submitResume (run init sixthRowTyped) echo (run init sixthRowTyped)).1.submissionCount
        = 6 ∧
      (submitResume (run init sixthRowTyped) echo (run init sixthRowTyped)).1.winState
        = "The word was train" ∧
      (submitTwice (run init sixthRowTyped) echo).submissionCount = 7 ∧
      submitTwice (run init sixthRowTyped) echo ≠
        (submitResume (run init sixthRowTyped) echo (run init sixthRowTyped)).1) :=
  ⟨⟨by decide, by decide, by decide, by decide, by decide, by decide, by decide, by decide,
      by decide⟩,
    ⟨by decide, by decide, by decide, by decide, by decide, by decide, by decide,
      fun h => absurd (congrArg State.submissionCount h) (by decide)⟩⟩

/-- C4, amended. In a game played from the initial state (which is also the state after a
reset) in which every call of `submit` returns before the next event, once six rows have
been accepted and none of them was all green: the outcome is `The word was ` followed by
the secret the sixth row was scored against, the submission count is 6, the cells of all
six rows are disabled, and every further `submit` alerts that five letters are needed and
leaves the state as it was. -/
theorem six_misses_lose (events : List Event)
    (hgame : gameRun init events = true)
    (hsix : (acceptedRows init events).length = 6)
    (hnone : ∀ r ∈ acceptedRows init events, r.2 = false) :
    (∃ secret, (acceptedRows init events).getLast? = some (secret, false) ∧
      (run init events).winState = "The word was " ++ secret) ∧
    (run init events).submissionCount = 6 ∧
    (∀ i, i < 6 → disabled (run init events) i = true) ∧
    ∀ dict, submit (run init events) dict =
      (run init events, [Effect.alert "Please enter a 5 letter word"]) := by
  have hcount : (run init events).submissionCount = 6 := by
    rw [count_run hgame, hsix]
    rfl
  have hne : acceptedRows init events ≠ [] := by
    intro h
    rw [h] at hsix
    exact Nat.noConfusion hsix
  refine ⟨reveal_run hgame (by rw [hsix]; rfl) hne hnone, hcount, ?_, ?_⟩
  · intro i hi
    unfold disabled
    rw [hcount, if_neg (by omega)]
  · exact submit_of_count_six (reachable_run Reachable.init hgame) hcount

/-- C4, at six rows of `crane` against the secret `train`. -/
theorem six_misses_lose_witness :
    (run init sixMisses).winState = "The word was train" ∧
    (run init sixMisses).submissionCount = 6 ∧
    disabled (run init sixMisses) 5 = true ∧
    submit (run init sixMisses) echo =
      (run init sixMisses, [Effect.alert "Please enter a 5 letter word"]) := by
  have h := six_misses_lose sixMisses (by decide) (by decide) (by decide)
  obtain ⟨secret, h1, h2⟩ := h.1
  have h3 : (acceptedRows init sixMisses).getLast? = some ("train", false) := by decide
  rw [h3] at h1
  have hsecret : secret = "train" := (congrArg Prod.fst (Option.some.inj h1)).symm
  rw [hsecret] at h2
  exact ⟨h2, h.2.1, h.2.2.1 5 (by decide), h.2.2.2 echo⟩

/-- C7, evaluated where it fails: the secret `train` is guessed in the first row, which sets
the outcome to `You Win!`; the next row is then enabled, five more rows are accepted, and
the sixth submission replaces the outcome by `The word was train`. -/
theorem win_is_followed_by_loss :
    gameRun init winThenPlayOn = true ∧
    (run init (winThenPlayOn.take 7)).winState = "You Win!" ∧
    disabled (run init (winThenPlayOn.take 7)) 1 = false ∧
    acceptedRows init winThenPlayOn =
      [("train", true), ("train", false), ("train", false), ("train", false),
        ("train", false), ("train", false)] ∧
    (run init winThenPlayOn).winState = "The word was train" :=
  ⟨by decide, by decide, by decide, by decide, by decide⟩

/-! ## The word fetch (C8) -/

theorem fetchLoop_misspelt (draws : Nat → Nat) (fuel k : Nat) (queried : List String) :
    fetchLoop misspelt draws fuel k ["hello"] queried =
      (FetchResult.running, queried ++ List.replicate fuel "hello") := by
  induction fuel generalizing k queried with
  | zero => simp [fetchLoop]
  | succ fuel ih =>
    have hcheck : dictionaryCheck (misspelt "hello") "hello" = some false := by decide
    simp only [fetchLoop, List.length_singleton, Nat.lt_one_iff, Nat.mod_one,
      List.getD_cons_zero, hcheck]
    rw [if_pos (by decide), ih, List.replicate_succ, List.append_assoc]
    rfl

/-- C8, evaluated where it fails: for the batch `hello` and a dictionary service whose
reply has another first headword, every iteration of the loop of `fetchData` looks up
`hello` again and leaves it in the batch, whatever the random draws: after any number of
iterations the loop is still running. -/
theorem unconfirmed_candidate_is_drawn_again (draws : Nat → Nat) (fuel : Nat) :
    fetchData misspelt draws fuel ["hello"] =
      (FetchResult.running, List.replicate fuel "hello") := by
  unfold fetchData
  rw [fetchLoop_misspelt]
  rfl

end Wordle
